import Mathlib

/-!
# Verification of the entrace tracing engine against its specification

This file shallowly embeds the core of the `entrace` repository in Lean 4:

* the filter-set query evaluator (`entrace_query/src/filtersets.rs`):
  the rewrite/normalization pass and the two-phase materialization;
* the span data model and the bincode (standard configuration) codec used by
  the IET/ET on-disk formats (`entrace_core/src/entry.rs`, `lib.rs`);
* the IET→ET and ET→IET conversions (`entrace_core/src/convert.rs`);
* the partial-record `header` decoder of the mmap provider
  (`entrace_core/src/mmap/mmap_log_provider.rs`);
* the file-watch IET worker loop (`entrace_core/src/remote/file_iet_log_provider.rs`);
* the main-thread `frame_callback` of the base IET provider
  (`entrace_core/src/remote/mod.rs`);
* the metadata predicate matcher (`entrace_query/src/lua_api.rs`).

Modelling conventions:
* Rust byte buffers are `List Nat` with every element < 256; Rust strings are
  their UTF-8 byte lists.
* Roaring bitmaps are membership functions `Nat → Bool`; ids are u32, so the
  full bitmap is `fun x => decide (x < 2^32)`.
* Rust panics (`panic!`, `unreachable!`, out-of-bounds indexing that the
  executions below can actually reach) are modelled with `Option`/error
  results.  Pool reads use a `Dead` default; every run proved below stays in
  bounds, so this agrees with the source.
* `HashSet`/`HashMap` iteration order is unspecified in Rust; the model fixes
  first-insertion order, a deterministic refinement that preserves the
  underlying sets and maps.
* Loops whose termination is part of what is being verified are given an
  explicit fuel parameter; running out of fuel is a distinguished outcome.
-/

/-! ## Roaring bitmaps as membership functions over u32 ids -/

def U32LIMIT : Nat := 2 ^ 32

def Roaring : Type := Nat → Bool

def Roaring.empty : Roaring := fun _ => false

def Roaring.full : Roaring := fun x => decide (x < U32LIMIT)

def Roaring.union (a b : Roaring) : Roaring := fun x => a x || b x

def Roaring.inter (a b : Roaring) : Roaring := fun x => a x && b x

def Roaring.diff (a b : Roaring) : Roaring := fun x => a x && !(b x)

/-- `RoaringBitmap::from_iter` of an explicit id list. -/
def Roaring.ofList (l : List Nat) : Roaring := fun x => l.contains x

/-- Clamping a materialized bitmap to the real id range `[0, len)`,
as callers of `Evaluator::materialize` are required to do. -/
def Roaring.clamp (len : Nat) (a : Roaring) : Roaring :=
  fun x => decide (x < len) && a x

/-! ## The span data model (`entrace_core/src/lib.rs`, `entry.rs`) -/

/-- `LevelContainer`, discriminants 0..4 as declared in `lib.rs`. -/
inductive LevelContainer where
  | Trace
  | Debug
  | Info
  | Warn
  | Error
deriving DecidableEq, Repr

/-- The Rust enum discriminant of `LevelContainer` (`Trace = 0 .. Error = 4`),
what `meta.level as u8` evaluates to. -/
def LevelContainer.disc : LevelContainer → Nat
  | .Trace => 0
  | .Debug => 1
  | .Info => 2
  | .Warn => 3
  | .Error => 4

/-- `level_to_u8` from `entrace_query/src/lua_api.rs`: the 1-based scale
exposed to Lua (`Trace = 1 .. Error = 5`). -/
def level_to_u8 : LevelContainer → Nat
  | .Trace => 1
  | .Debug => 2
  | .Info => 3
  | .Warn => 4
  | .Error => 5

/-- Rust strings modelled as UTF-8 byte lists. -/
abbrev ByteStr := List Nat

/-- `EnValue` from `entrace_core/src/tree_layer.rs`.  The float payload is
kept as its raw 8-byte little-endian bit pattern (a `Nat < 2^64`); no claim
below compares floats. -/
inductive EnValue where
  | String (s : ByteStr)
  | Bytes (b : List Nat)
  | Bool (b : Bool)
  | Float (bits : Nat)
  | U64 (v : Nat)
  | I64 (v : Int)
  | U128 (v : Nat)
  | I128 (v : Int)
deriving DecidableEq, Repr

/-- `MetadataContainer`, canonical field order
`name, target, level, module_path, file, line`. -/
structure MetadataContainer where
  name : ByteStr
  target : ByteStr
  level : LevelContainer
  module_path : Option ByteStr
  file : Option ByteStr
  line : Option Nat
deriving DecidableEq, Repr

/-- `TraceEntry`, canonical field order `parent, message, metadata, attributes`. -/
structure TraceEntry where
  parent : Nat
  message : Option ByteStr
  metadata : MetadataContainer
  attributes : List (ByteStr × EnValue)
deriving DecidableEq, Repr

/-- `PoolEntry { children: Vec<u32> }`. -/
structure PoolEntry where
  children : List Nat
deriving DecidableEq, Repr

def PoolEntry.new : PoolEntry := ⟨[]⟩

/-! ## `meta_matches` (`entrace_query/src/lua_api.rs`) -/

/-- Byte-wise lexicographic comparison, the order `str::cmp` uses. -/
def byteCmp : ByteStr → ByteStr → Ordering
  | [], [] => .eq
  | [], _ :: _ => .lt
  | _ :: _, [] => .gt
  | a :: as_, b :: bs =>
    if a < b then .lt else if b < a then .gt else byteCmp as_ bs

/-- Integer comparison as `Ord::cmp` on `Nat`/`u8`. -/
def natCmp (a b : Nat) : Ordering :=
  if a < b then .lt else if b < a then .gt else .eq

/-- `string_eq` helper inside `meta_matches`. -/
def string_eq (a : ByteStr) (value : EnValue) (comparator : Ordering) : Bool :=
  match value with
  | .String b => byteCmp a b == comparator
  | _ => false

/-- `opt_string_eq` helper inside `meta_matches`. -/
def opt_string_eq (a : Option ByteStr) (value : EnValue) (comparator : Ordering) : Bool :=
  match a with
  | none => false
  | some a => string_eq a value comparator

/-- `x as u8` for an `i64` value: truncating cast modulo 256. -/
def i64AsU8 (x : Int) : Nat := (x % 256).toNat % 256

/-- `x as u8` for a `u64` value. -/
def u64AsU8 (x : Nat) : Nat := x % 256

/-- `x as u32` casts used in the `"line"` branch. -/
def u64AsU32 (x : Nat) : Nat := x % U32LIMIT

def i64AsU32 (x : Int) : Nat := (x % (U32LIMIT : Int)).toNat % U32LIMIT

/-- Rust `f64 as u32` (saturating, truncation toward zero), computed from the
raw IEEE-754 bit pattern. NaN and negative values go to 0, values at or above
`2^32` saturate to `u32::MAX`. -/
def floatBitsAsU32 (bits : Nat) : Nat :=
  let sign := bits / 2 ^ 63
  let exp := bits / 2 ^ 52 % 2 ^ 11
  let frac := bits % 2 ^ 52
  if exp = 2047 then
    -- infinity or NaN
    if frac ≠ 0 then 0 else if sign = 1 then 0 else U32LIMIT - 1
  else if sign = 1 then 0 -- negative values truncate into the saturation floor
  else if exp < 1023 then 0 -- magnitude below 1
  else
    let e := exp - 1023
    let m := 2 ^ 52 + frac
    let floorVal := if e ≥ 52 then m * 2 ^ (e - 52) else m / 2 ^ (52 - e)
    if floorVal ≥ U32LIMIT then U32LIMIT - 1 else floorVal

/-- `meta_matches` from `lua_api.rs`.  `error` models the `bail!` on an
unknown meta field. -/
def meta_matches (meta : MetadataContainer) (target : ByteStr) (comparator : Ordering)
    (value : EnValue) : Except ByteStr Bool :=
  if target = [110, 97, 109, 101] then -- "name"
    .ok (string_eq meta.name value comparator)
  else if target = [116, 97, 114, 103, 101, 116] then -- "target"
    .ok (string_eq meta.target value comparator)
  else if target = [108, 101, 118, 101, 108] then -- "level"
    match value with
    | .U64 x => .ok (natCmp meta.level.disc (u64AsU8 x) == comparator)
    | .I64 x => .ok (natCmp meta.level.disc (i64AsU8 x) == comparator)
    | _ => .ok false
  else if target = [109, 111, 100, 117, 108, 101, 95, 112, 97, 116, 104] then -- "module_path"
    .ok (opt_string_eq meta.module_path value comparator)
  else if target = [102, 105, 108, 101] then -- "file"
    .ok (opt_string_eq meta.file value comparator)
  else if target = [108, 105, 110, 101] then -- "line"
    match value with
    | .U64 a =>
      match meta.line with
      | none => .ok false
      | some line => .ok (natCmp line (u64AsU32 a) == comparator)
    | .I64 a =>
      match meta.line with
      | none => .ok false
      | some line => .ok (natCmp line (i64AsU32 a) == comparator)
    | .Float a =>
      match meta.line with
      | none => .ok false
      | some line => .ok (natCmp line (floatBitsAsU32 a) == comparator)
    | _ => .ok false
  else
    .error target

/-! ## The filter-set evaluator (`entrace_query/src/filtersets.rs`)

The evaluator is generic over the predicate constant type `T` in the source;
it is only ever instantiated at `T = EnValue` (`lua_api.rs`), which is the
instantiation modelled here. -/

structure Predicate where
  attr : ByteStr
  rel : Ordering
  constant : EnValue

inductive Filterset where
  | Dead
  | Primitive (bm : Roaring)
  | BlackBox (src : Nat)
  | RelDnf (clauses : List (List Nat)) (src : Nat)
  | And (items : List Nat)
  | Or (items : List Nat)
  | Not (src : Nat)

inductive ChildrenRef where
  | None
  | One (a : Nat)
  | Many (items : List Nat)

def Filterset.children : Filterset → ChildrenRef
  | .Dead => .None
  | .Primitive _ => .None
  | .Not a => .One a
  | .BlackBox a => .One a
  | .RelDnf _ a => .One a
  | .And i => .Many i
  | .Or i => .Many i

inductive RewriteAction where
  | None
  | CompressAnd (id : Nat) (inner : List Nat)
  | CompressOr (id : Nat) (inner : List Nat)
  | EliminateNotNot (not1p not2p innerp : Nat)
  | DnfDnf (dnf1 dnf2 src2 : Nat)
  | MergeDnfsInOr (id : Nat) (groups : List (Nat × List Nat))
  | MergeDnfsInAnd (id : Nat) (groups : List (Nat × List Nat))
  | EliminateSingleOr (id : Nat)
  | EliminateSingleAnd (id : Nat)

def RewriteAction.isNone : RewriteAction → Bool
  | .None => true
  | _ => false

def MAX_DNF_CLAUSES : Nat := 128

def DNFS_IN_AND_MERGE_MAX_CLAUSES : Nat := MAX_DNF_CLAUSES / 2

structure Evaluator where
  pool : List Filterset
  predicates : List Predicate
  results : List (Nat × Roaring)

/-- `self.pool[i]`.  All executions proved below stay in bounds, where this
agrees with the panicking Rust indexing. -/
def Evaluator.poolGet (e : Evaluator) (i : Nat) : Filterset := e.pool.getD i .Dead

def Evaluator.isAnd (e : Evaluator) (id : Nat) : Bool :=
  match e.poolGet id with
  | .And _ => true
  | _ => false

def Evaluator.isOr (e : Evaluator) (id : Nat) : Bool :=
  match e.poolGet id with
  | .Or _ => true
  | _ => false

def Evaluator.lenOfMergedDnf (e : Evaluator) (dnfs : List Nat) : Nat :=
  (dnfs.filterMap fun x =>
    match e.poolGet x with
    | .RelDnf items _ => some items.length
    | _ => none).prod

/-- `HashMap` results lookup (`self.results[&k]` succeeds iff this is `some`). -/
def resultsLookup (rs : List (Nat × Roaring)) (k : Nat) : Option Roaring :=
  (rs.find? fun p => p.fst == k).map Prod.snd

/-- `HashMap::insert`, replacing any previous binding for the key. -/
def resultsInsert (rs : List (Nat × Roaring)) (k : Nat) (v : Roaring) :
    List (Nat × Roaring) :=
  (k, v) :: rs.filter fun p => p.fst != k

/-- `Itertools::into_group_map`: groups the second components by the first.
Rust's `HashMap` key iteration order is unspecified; the model fixes
first-encounter order.  Values keep iteration order, as in the source. -/
def groupInsert (acc : List (Nat × List Nat)) (k v : Nat) : List (Nat × List Nat) :=
  match acc with
  | [] => [(k, [v])]
  | (k2, vs) :: rest =>
    if k2 = k then (k2, vs ++ [v]) :: rest else (k2, vs) :: groupInsert rest k v

def groupPairs (ps : List (Nat × Nat)) : List (Nat × List Nat) :=
  ps.foldl (fun acc p => groupInsert acc p.1 p.2) []

/-- `HashSet` modelled as a duplicate-free list in first-insertion order. -/
def hsExtend (s : List Nat) (xs : List Nat) : List Nat :=
  xs.foldl (fun acc y => if acc.contains y then acc else acc ++ [y]) s

def hsFromIter (xs : List Nat) : List Nat := hsExtend [] xs

def hsRemove (s : List Nat) (x : Nat) : List Nat := s.filter fun y => y != x

def Evaluator.decideRewriteAction (e : Evaluator) (id : Nat) : RewriteAction :=
  match e.poolGet id with
  | .And items =>
    if items.length == 1 then .EliminateSingleAnd id
    else
      let ands := items.filter fun p => e.isAnd p
      if ands.isEmpty = false then .CompressAnd id ands
      else
        let dnfBySource := groupPairs (items.filterMap fun x =>
          match e.poolGet x with
          | .RelDnf _ src => some (src, x)
          | _ => none)
        let canMerge := dnfBySource.any fun p =>
          decide (p.2.length > 1) &&
            dnfBySource.any fun q =>
              decide (e.lenOfMergedDnf q.2 < DNFS_IN_AND_MERGE_MAX_CLAUSES)
        if canMerge then .MergeDnfsInAnd id dnfBySource else .None
  | .Or items =>
    if items.length == 1 then .EliminateSingleOr id
    else
      let ors := items.filter fun x => e.isOr x
      if ors.isEmpty = false then .CompressOr id ors
      else
        let dnfBySource := groupPairs (items.filterMap fun x =>
          match e.poolGet x with
          | .RelDnf _ src => some (src, x)
          | _ => none)
        let canMerge := dnfBySource.any fun p => decide (p.2.length > 1)
        if canMerge then .MergeDnfsInOr id dnfBySource else .None
  | .Not y =>
    match e.poolGet y with
    | .Not q => .EliminateNotNot id y q
    | _ => .None
  | .RelDnf c1 src =>
    match e.poolGet src with
    | .RelDnf c2 src2 =>
      if c1.length * c2.length < MAX_DNF_CLAUSES then .DnfDnf id src src2 else .None
    | _ => .None
  | _ => .None

/-- `multi_cartesian_product` over clause lists (leftmost factor slowest, as
with itertools).  Only reached with at least two factors in the executions
below. -/
def multiCartesian : List (List (List Nat)) → List (List (List Nat))
  | [] => [[]]
  | l :: ls => (l.map fun x => (multiCartesian ls).map fun combo => x :: combo).flatten

/-- `Evaluator::do_rewrite_action`.  `none` models a Rust panic
(`unreachable!` or an out-of-bounds index). -/
def Evaluator.doRewriteAction (e : Evaluator) (action : RewriteAction) : Option Evaluator :=
  match action with
  | .None => some e
  | .CompressAnd id innerAnds =>
    match e.poolGet id with
    | .And items =>
      -- NB: the source looks up `self.pool[items[*ptr]]`, indexing the item
      -- list by the collected child id, while removing and killing the id
      -- itself; modelled verbatim.
      let step : Option (List Nat) → Nat → Option (List Nat) := fun acc ptr =>
        acc.bind fun s =>
          let s2 := hsRemove s ptr
          match items.get? ptr with
          | none => none
          | some mid =>
            match e.poolGet mid with
            | .And others => some (hsExtend s2 others)
            | _ => none
      match innerAnds.foldl step (some (hsFromIter items)) with
      | none => none
      | some set =>
        let e2 := { e with pool := e.pool.set id (.And set) }
        some (innerAnds.foldl (fun acc ptr => { acc with pool := acc.pool.set ptr .Dead }) e2)
    | _ => none
  | .CompressOr id innerOrs =>
    match e.poolGet id with
    | .Or items =>
      let step : Option (List Nat) → Nat → Option (List Nat) := fun acc ptr =>
        acc.bind fun s =>
          let s2 := hsRemove s ptr
          match items.get? ptr with
          | none => none
          | some mid =>
            match e.poolGet mid with
            | .Or others => some (hsExtend s2 others)
            | _ => none
      match innerOrs.foldl step (some (hsFromIter items)) with
      | none => none
      | some set =>
        let e2 := { e with pool := e.pool.set id (.Or set) }
        some (innerOrs.foldl (fun acc ptr => { acc with pool := acc.pool.set ptr .Dead }) e2)
    | _ => none
  | .EliminateSingleOr id =>
    match e.poolGet id with
    | .Or srcs =>
      match srcs with
      | [] => none
      | s0 :: _ =>
        let p1 := e.pool.set id .Dead
        let a := p1.getD id .Dead
        let b := p1.getD s0 .Dead
        some { e with pool := (p1.set id b).set s0 a }
    | _ => none
  | .EliminateSingleAnd id =>
    match e.poolGet id with
    | .And srcs =>
      match srcs with
      | [] => none
      | s0 :: _ =>
        let p1 := e.pool.set id .Dead
        let a := p1.getD id .Dead
        let b := p1.getD s0 .Dead
        some { e with pool := (p1.set id b).set s0 a }
    | _ => none
  | .EliminateNotNot not1p not2p innerp =>
    let inner := e.poolGet innerp
    let p1 := e.pool.set innerp .Dead
    let p2 := p1.set not1p inner
    some { e with pool := p2.set not2p .Dead }
  | .DnfDnf dnf1 dnf2 src2 =>
    match e.poolGet dnf2 with
    | .RelDnf c2 _ =>
      let p1 := e.pool.set dnf2 .Dead
      match p1.getD dnf1 .Dead with
      | .RelDnf c1 _ =>
        let newClauses := (c1.map fun cl1 => c2.map fun cl2 => cl1 ++ cl2).flatten
        some { e with pool := p1.set dnf1 (.RelDnf newClauses src2) }
      | _ => none
    | _ => none
  | .MergeDnfsInOr orid groups =>
    match e.poolGet orid with
    | .Or cs =>
      let e1 := { e with pool := e.pool.set orid .Dead }
      let step : Option (Evaluator × List Nat) → Nat × List Nat →
          Option (Evaluator × List Nat) := fun acc g =>
        acc.bind fun (ev, orClauses) =>
          if g.2.length < 2 then some (ev, orClauses)
          else
            match g.2 with
            | [] => none
            | d0 :: rest =>
              match ev.poolGet d0 with
              | .RelDnf firstc _ =>
                let ev2 := { ev with pool := ev.pool.set d0 .Dead }
                let inner : Option (Evaluator × List Nat × List (List Nat)) → Nat →
                    Option (Evaluator × List Nat × List (List Nat)) := fun acc2 dnf =>
                  acc2.bind fun (ev3, oc, fc) =>
                    match ev3.poolGet dnf with
                    | .RelDnf c _ =>
                      some ({ ev3 with pool := ev3.pool.set dnf .Dead },
                        hsRemove oc dnf, fc ++ c)
                    | _ => none
                match rest.foldl inner (some (ev2, orClauses, firstc)) with
                | none => none
                | some (ev4, oc2, fc2) =>
                  some ({ ev4 with pool := ev4.pool.set d0 (.RelDnf fc2 g.1) }, oc2)
              | _ => none
      match groups.foldl step (some (e1, hsFromIter cs)) with
      | none => none
      | some (ev5, orClauses5) =>
        some { ev5 with pool := ev5.pool.set orid (.Or orClauses5) }
    | _ => none
  | .MergeDnfsInAnd andid groups =>
    match e.poolGet andid with
    | .And cs =>
      let e1 := { e with pool := e.pool.set andid .Dead }
      let step : Option (Evaluator × List Nat) → Nat × List Nat →
          Option (Evaluator × List Nat) := fun acc g =>
        acc.bind fun (ev, andClauses) =>
          if g.2.length < 2 ∨ ev.lenOfMergedDnf g.2 > DNFS_IN_AND_MERGE_MAX_CLAUSES then
            some (ev, andClauses)
          else
            let clauseLists := g.2.filterMap fun x =>
              match ev.poolGet x with
              | .RelDnf items _ => some items
              | _ => none
            let newClauseList := (multiCartesian clauseLists).map fun combo => combo.flatten
            match g.2 with
            | [] => none
            | d0 :: rest =>
              match ev.poolGet d0 with
              | .RelDnf _ src0 =>
                let ev2 := { ev with pool := ev.pool.set d0 (.RelDnf newClauseList src0) }
                let inner : Option (Evaluator × List Nat) → Nat →
                    Option (Evaluator × List Nat) := fun acc2 dnf =>
                  acc2.bind fun (ev3, ac) =>
                    match ev3.poolGet dnf with
                    | .RelDnf _ _ =>
                      some ({ ev3 with pool := ev3.pool.set dnf .Dead }, hsRemove ac dnf)
                    | _ => none
                rest.foldl inner (some (ev2, andClauses))
              | _ => none
      match groups.foldl step (some (e1, hsFromIter cs)) with
      | none => none
      | some (ev5, andClauses5) =>
        some { ev5 with pool := ev5.pool.set andid (.And andClauses5) }
    | _ => none

/-- `Evaluator::rewrite_one`: decide, then execute; returns the decided
action together with the successor state. -/
def Evaluator.rewriteOne (e : Evaluator) (id : Nat) : Option (RewriteAction × Evaluator) :=
  let action := e.decideRewriteAction id
  (e.doRewriteAction action).map fun e2 => (action, e2)

/-- `Evaluator::post_order`: DFS producing the reversed visit order and the
`parent_of` table (`usize::MAX` = `none`).  Fuel bounds the stack loop. -/
def postOrderLoop (e : Evaluator) : Nat → List Nat → List Nat → List (Option Nat) →
    Option (List Nat × List (Option Nat))
  | _, [], stack2, parentOf => some (stack2.reverse, parentOf)
  | 0, _ :: _, _, _ => none
  | f + 1, v :: rest, stack2, parentOf =>
    let stack2 := stack2.concat v
    match (e.poolGet v).children with
    | .None => postOrderLoop e f rest stack2 parentOf
    | .One x => postOrderLoop e f (x :: rest) stack2 (parentOf.set x (some v))
    | .Many items =>
      postOrderLoop e f (items.reverse ++ rest) stack2
        (items.foldl (fun po item => po.set item (some v)) parentOf)

def Evaluator.postOrder (e : Evaluator) (fuel : Nat) (root : Nat) :
    Option (List Nat × List (Option Nat)) :=
  postOrderLoop e fuel [root] [] (List.replicate e.pool.length none)

inductive StepResult (α : Type) where
  | ok (a : α)
  | panicked
  | fuelOut

/-- The `while !matches!(self.rewrite_one(x), RewriteAction::None)` local
fixpoint inside `normalize`; the returned `Bool` is `any_action`. -/
def rewriteFix : Nat → Evaluator → Nat → StepResult (Evaluator × Bool)
  | 0, _, _ => .fuelOut
  | f + 1, e, x =>
    match e.rewriteOne x with
    | none => .panicked
    | some (action, e2) =>
      if action.isNone then .ok (e2, false)
      else
        match rewriteFix f e2 x with
        | .ok (e3, _) => .ok (e3, true)
        | .panicked => .panicked
        | .fuelOut => .fuelOut

inductive NormResult where
  | ok (e : Evaluator)
  | resultsNotEmpty
  | panicked
  | fuelOut

def NormResult.isOk : NormResult → Bool
  | .ok _ => true
  | _ => false

/-- The FIFO worklist loop of `normalize`. -/
def normLoop (root : Nat) (parentOf : List (Option Nat)) :
    Nat → Evaluator → List Nat → NormResult
  | _, e, [] => .ok e
  | 0, _, _ :: _ => .fuelOut
  | f + 1, e, x :: rest =>
    match rewriteFix (f + 1) e x with
    | .fuelOut => .fuelOut
    | .panicked => .panicked
    | .ok (e2, anyAction) =>
      if anyAction && x != root then
        match parentOf.getD x none with
        | none => .panicked -- the "Don't know parent" panic
        | some parent => normLoop root parentOf f e2 (rest ++ [parent])
      else normLoop root parentOf f e2 rest

/-- `Evaluator::normalize`.  The entry check models
`panic!("Normalizing after there are results is unsafe")`. -/
def Evaluator.normalize (e : Evaluator) (fuel : Nat) (root : Nat) : NormResult :=
  if e.results.isEmpty = false then .resultsNotEmpty
  else
    match e.postOrder fuel root with
    | none => .fuelOut
    | some (postOrder, parentOf) => normLoop root parentOf fuel e postOrder

/-- The injected predicate engine (`Matcher::subset_matching_dnf`), with the
predicate ids already resolved against the evaluator's predicate pool. -/
def Matcher : Type := List (List Predicate) → Roaring → Roaring

/-- The two-phase materialization stack loop of `Evaluator::materialize`.
`none` models a panic (missing `results` entry) or exhausted fuel; every run
below completes. -/
def materializeLoop (m : Matcher) : Nat → Evaluator → List (Nat × Bool) → Option Evaluator
  | _, e, [] => some e
  | 0, _, _ :: _ => none
  | f + 1, e, (node, ready) :: rest =>
    if ready = false then
      let stack := (node, true) :: rest
      match (e.poolGet node).children with
      | .None => materializeLoop m f e stack
      | .One x => materializeLoop m f e ((x, false) :: stack)
      | .Many items =>
        materializeLoop m f e ((items.reverse.map fun i => (i, false)) ++ stack)
    else
      match e.poolGet node with
      | .Dead =>
        materializeLoop m f
          { e with results := resultsInsert e.results node Roaring.empty } rest
      | .Primitive bm =>
        materializeLoop m f { e with results := resultsInsert e.results node bm } rest
      | .BlackBox src =>
        match resultsLookup e.results src with
        | none => none
        | some r =>
          materializeLoop m f { e with results := resultsInsert e.results node r } rest
      | .And items =>
        -- NB: the source computes `.union()` over the children here as well.
        match items.mapM fun x => resultsLookup e.results x with
        | none => none
        | some rs =>
          materializeLoop m f
            { e with results :=
                resultsInsert e.results node (rs.foldl Roaring.union Roaring.empty) } rest
      | .Or items =>
        match items.mapM fun x => resultsLookup e.results x with
        | none => none
        | some rs =>
          materializeLoop m f
            { e with results :=
                resultsInsert e.results node (rs.foldl Roaring.union Roaring.empty) } rest
      | .Not src =>
        match resultsLookup e.results src with
        | none => none
        | some r =>
          materializeLoop m f
            { e with results := resultsInsert e.results node (Roaring.diff Roaring.full r) }
            rest
      | .RelDnf items src =>
        match resultsLookup e.results src with
        | none => none
        | some r =>
          match items.mapM fun cl => cl.mapM fun y => e.predicates.get? y with
          | none => none
          | some preds =>
            materializeLoop m f
              { e with results := resultsInsert e.results node (m preds r) } rest

def Evaluator.materialize (e : Evaluator) (m : Matcher) (fuel : Nat) (id : Nat) :
    Option Evaluator :=
  materializeLoop m fuel e [(id, false)]

/-! ## The bincode standard-configuration codec

`bincode::config::standard()` is little-endian with variable-width integer
encoding: an unsigned integer below 251 is a single byte; otherwise a marker
byte 251/252/253/254 is followed by the little-endian u16/u32/u64/u128.
Signed integers are zigzag-encoded first.  `Option` is a 0/1 tag byte,
sequences are a length (u64 varint) followed by the elements, serde structs
are their fields in declaration order and serde enums are the u32 variant
index followed by the payload.  `f64` stays a fixed 8-byte little-endian
value.  Strings are a length followed by the UTF-8 bytes; the runs proved in
this file only ever decode ASCII well inside the valid range, where the
UTF-8 validation of the real decoder always succeeds, so the model omits
it. -/

def natToLe (width n : Nat) : List Nat :=
  (List.range width).map fun i => n / 256 ^ i % 256

def leToNat (bs : List Nat) : Nat :=
  bs.foldr (fun b acc => acc * 256 + b) 0

def encVarint (n : Nat) : List Nat :=
  if n < 251 then [n]
  else if n < 2 ^ 16 then 251 :: natToLe 2 n
  else if n < 2 ^ 32 then 252 :: natToLe 4 n
  else if n < 2 ^ 64 then 253 :: natToLe 8 n
  else 254 :: natToLe 16 n

/-- Zigzag transform used by bincode for signed integers. -/
def zigzag (v : Int) : Nat :=
  if 0 ≤ v then 2 * v.toNat else 2 * (-v).toNat - 1

def unzigzag (n : Nat) : Int :=
  if n % 2 = 0 then (n / 2 : Nat) else -((n + 1) / 2 : Nat)

def encBytes (s : List Nat) : List Nat := encVarint s.length ++ s

def encOpt (enc : α → List Nat) : Option α → List Nat
  | none => [0]
  | some x => 1 :: enc x

def encLevel (l : LevelContainer) : List Nat := encVarint l.disc

def encEnValue : EnValue → List Nat
  | .String s => encVarint 0 ++ encBytes s
  | .Bytes b => encVarint 1 ++ encBytes b
  | .Bool b => encVarint 2 ++ [if b then 1 else 0]
  | .Float bits => encVarint 3 ++ natToLe 8 bits
  | .U64 v => encVarint 4 ++ encVarint v
  | .I64 v => encVarint 5 ++ encVarint (zigzag v)
  | .U128 v => encVarint 6 ++ encVarint v
  | .I128 v => encVarint 7 ++ encVarint (zigzag v)

def encMetadata (m : MetadataContainer) : List Nat :=
  encBytes m.name ++ encBytes m.target ++ encLevel m.level ++
    encOpt encBytes m.module_path ++ encOpt encBytes m.file ++ encOpt encVarint m.line

def encodeTraceEntry (t : TraceEntry) : List Nat :=
  encVarint t.parent ++ encOpt encBytes t.message ++ encMetadata t.metadata ++
    encVarint t.attributes.length ++
    (t.attributes.map fun a => encBytes a.1 ++ encEnValue a.2).flatten

/-- Decode errors: `eof` models `DecodeError::UnexpectedEnd` and
`Io(UnexpectedEof)`; `bad` models every other (corruption) `DecodeError`. -/
inductive DecErr where
  | eof
  | bad
deriving DecidableEq, Repr

/-- A byte-stream decoder: takes the buffer and the current position, and
returns the decoded value with the new position, or an error with the
position at which the underlying reader stopped (`decode_from_std_read`
consumes the bytes it has read even on failure). -/
def DecM (α : Type) : Type := List Nat → Nat → Except (DecErr × Nat) (α × Nat)

instance : Monad DecM where
  pure a := fun _ pos => .ok (a, pos)
  bind d f := fun buf pos =>
    match d buf pos with
    | .error e => .error e
    | .ok (a, p2) => f a buf p2

def decFail : DecM α := fun _ pos => .error (.bad, pos)

def decByte : DecM Nat := fun buf pos =>
  match buf.get? pos with
  | some b => .ok (b, pos + 1)
  | none => .error (.eof, pos)

def decTake (n : Nat) : DecM (List Nat) := fun buf pos =>
  if pos + n ≤ buf.length then .ok ((buf.drop pos).take n, pos + n)
  else .error (.eof, pos)

/-- Varint decoding for u32-width integers: markers 251/252 are legal,
markers for wider integers are a (non-EOF) decode error. -/
def decVarintU32 : DecM Nat := do
  let b ← decByte
  if b < 251 then pure b
  else if b == 251 then leToNat <$> decTake 2
  else if b == 252 then leToNat <$> decTake 4
  else decFail

/-- Varint decoding for u64-width integers (lengths, offsets). -/
def decVarintU64 : DecM Nat := do
  let b ← decByte
  if b < 251 then pure b
  else if b == 251 then leToNat <$> decTake 2
  else if b == 252 then leToNat <$> decTake 4
  else if b == 253 then leToNat <$> decTake 8
  else decFail

def decVarintU128 : DecM Nat := do
  let b ← decByte
  if b < 251 then pure b
  else if b == 251 then leToNat <$> decTake 2
  else if b == 252 then leToNat <$> decTake 4
  else if b == 253 then leToNat <$> decTake 8
  else if b == 254 then leToNat <$> decTake 16
  else decFail

def decBytes : DecM (List Nat) := do
  let n ← decVarintU64
  decTake n

def decOpt (d : DecM α) : DecM (Option α) := do
  let b ← decByte
  if b == 0 then pure none
  else if b == 1 then some <$> d
  else decFail

def decBool : DecM Bool := do
  let b ← decByte
  if b == 0 then pure false else if b == 1 then pure true else decFail

def decLevel : DecM LevelContainer := do
  let v ← decVarintU32
  match v with
  | 0 => pure .Trace
  | 1 => pure .Debug
  | 2 => pure .Info
  | 3 => pure .Warn
  | 4 => pure .Error
  | _ => decFail

def decEnValue : DecM EnValue := do
  let v ← decVarintU32
  match v with
  | 0 => EnValue.String <$> decBytes
  | 1 => EnValue.Bytes <$> decBytes
  | 2 => EnValue.Bool <$> decBool
  | 3 => (EnValue.Float ∘ leToNat) <$> decTake 8
  | 4 => EnValue.U64 <$> decVarintU64
  | 5 => (EnValue.I64 ∘ unzigzag) <$> decVarintU64
  | 6 => EnValue.U128 <$> decVarintU128
  | 7 => (EnValue.I128 ∘ unzigzag) <$> decVarintU128
  | _ => decFail

def decListN (d : DecM α) : Nat → DecM (List α)
  | 0 => pure []
  | n + 1 => do
    let x ← d
    let xs ← decListN d n
    pure (x :: xs)

def decVec (d : DecM α) : DecM (List α) := do
  let n ← decVarintU64
  decListN d n

def decMetadata : DecM MetadataContainer := do
  let name ← decBytes
  let target ← decBytes
  let level ← decLevel
  let modulePath ← decOpt decBytes
  let file ← decOpt decBytes
  let line ← decOpt decVarintU32
  pure ⟨name, target, level, modulePath, file, line⟩

def decTraceEntry : DecM TraceEntry := do
  let parent ← decVarintU32
  let message ← decOpt decBytes
  let metadata ← decMetadata
  let attributes ← decVec (do
    let k ← decBytes
    let v ← decEnValue
    pure (k, v))
  pure ⟨parent, message, metadata, attributes⟩

def decPoolEntry : DecM PoolEntry := do
  let children ← decVec decVarintU32
  pure ⟨children⟩

/-! ## The partial `header` decoder of the mmap provider
(`mmap_log_provider.rs`).  Its local `MetadataPart` declares the fields
`name, target, level, file, line` — without `module_path`. -/

structure MetadataPart where
  name : ByteStr
  target : ByteStr
  level : LevelContainer
  file : Option ByteStr
  line : Option Nat
deriving DecidableEq, Repr

structure HeaderPart where
  parent : Nat
  message : Option ByteStr
  metadata : MetadataPart
deriving DecidableEq, Repr

def decHeaderPart : DecM HeaderPart := do
  let parent ← decVarintU32
  let message ← decOpt decBytes
  let name ← decBytes
  let target ← decBytes
  let level ← decLevel
  let file ← decOpt decBytes
  let line ← decOpt decVarintU32
  pure ⟨parent, message, ⟨name, target, level, file, line⟩⟩

/-- `Header` as the mmap provider's `header()` builds it from a decoded
`HeaderPart`. -/
structure Header where
  name : ByteStr
  level : LevelContainer
  file : Option ByteStr
  line : Option Nat
  message : Option ByteStr
deriving DecidableEq, Repr

def headerOfPart (hp : HeaderPart) : Header :=
  ⟨hp.metadata.name, hp.metadata.level, hp.metadata.file, hp.metadata.line, hp.message⟩

/-- The same five fields taken from a fully decoded `TraceEntry`, as the
base provider's `header()` and `meta()` do. -/
def headerOfEntry (t : TraceEntry) : Header :=
  ⟨t.metadata.name, t.metadata.level, t.metadata.file, t.metadata.line, t.message⟩

/-! ## Conversions (`entrace_core/src/convert.rs`) -/

def entraceMagicET : List Nat := [0, 69, 78, 84, 82, 65, 67, 69, 1, 0]

def entraceMagicIET : List Nat := [0, 69, 78, 84, 82, 65, 67, 69, 1, 1]

def encVecU64 (xs : List Nat) : List Nat :=
  encVarint xs.length ++ (xs.map encVarint).flatten

def encPoolEntry (pe : PoolEntry) : List Nat :=
  encVarint pe.children.length ++ (pe.children.map encVarint).flatten

def encVecPool (pool : List PoolEntry) : List Nat :=
  encVarint pool.length ++ (pool.map encPoolEntry).flatten

/-- `pool[parent].children.push(pl)`.  All proved runs stay in bounds, where
this agrees with the panicking Rust indexing. -/
def pushChild (pool : List PoolEntry) (parent : Nat) (pl : Nat) : List PoolEntry :=
  pool.set parent ⟨(pool.getD parent ⟨[]⟩).children ++ [pl]⟩

/-- The scan loop of `gather_iet_table_data`.  The outer `Option` is the
fuel (`none` never occurs when called with `buf.length + 1`, since every
iteration consumes at least one byte). -/
def gatherLoop (lenPref : Bool) (buf : List Nat) (extraOffset : Nat) :
    Nat → Nat → List Nat → List PoolEntry → Bool →
    Option (Except DecErr (List Nat × List PoolEntry))
  | 0, _, _, _, _ => none
  | f + 1, pos, offsets, pool, hadRoot =>
    if lenPref ∧ buf.length < pos + 8 then
      -- `read_exact` of the length prefix hit EOF: break
      some (.ok (offsets, pool))
    else
      let pos := if lenPref then pos + 8 else pos
      let pl := pool.length
      let offset := pos - extraOffset
      match decTraceEntry buf pos with
      | .ok (x, p2) =>
        let offsets := offsets.concat offset
        let pool := pool.concat PoolEntry.new
        let pool := if hadRoot then pushChild pool x.parent pl else pool
        gatherLoop lenPref buf extraOffset f p2 offsets pool true
      | .error (.eof, _) => some (.ok (offsets, pool))
      | .error (.bad, _) => some (.error .bad)

def gather_iet_table_data (buf : List Nat) (skipMagic lenPref : Bool) :
    Option (Except DecErr (List Nat × List PoolEntry)) :=
  let startPos := if skipMagic then 10 else 0
  let extra := if skipMagic then 10 else 0
  gatherLoop lenPref buf extra (buf.length + 1) startPos [] [] false

/-- `iet_to_et`: gather the tables, then write the ET magic, the encoded
offset table and pool, and copy the span bytes.  When `skip_magic` is false
the source never seeks the input back before `std::io::copy`, so the copy
starts at the EOF the gather scan reached and contributes nothing; the
branch below is verbatim to the source. -/
def iet_to_et (buf : List Nat) (skipMagic lenPref : Bool) :
    Option (Except DecErr (List Nat)) :=
  match gather_iet_table_data buf skipMagic lenPref with
  | none => none
  | some (.error e) => some (.error e)
  | some (.ok (offsets, pool)) =>
    let dataBytes := if skipMagic then buf.drop 10 else []
    some (.ok (entraceMagicET ++ encVecU64 offsets ++ encVecPool pool ++ dataBytes))

/-- `et_to_iet`: decodes the offset-table length prefix, then
`seek_relative`s that many BYTES (the prefix is the element count), decodes
the pool, and copies the rest. -/
def et_to_iet (buf : List Nat) (skipMagic : Bool) : Except DecErr (List Nat) :=
  let pos := if skipMagic then 10 else 0
  match decVarintU64 buf pos with
  | .error (e, _) => .error e
  | .ok (offsetTableLen, p1) =>
    let p2 := p1 + offsetTableLen
    match decVec decPoolEntry buf p2 with
    | .error (e, _) => .error e
    | .ok (_, p3) => .ok (entraceMagicIET ++ buf.drop p3)

/-! ## The file-watch IET worker (`file_iet_log_provider.rs`) -/

inductive MainThreadMessage where
  | Insert (e : TraceEntry)
  | InsertMany (es : List TraceEntry)
  | ReplacePool (p : List PoolEntry)
  | ReplaceData (d : List TraceEntry)
deriving DecidableEq, Repr

inductive ReadState where
  | Standby
  | Retrying (retries : Nat)
deriving DecidableEq, Repr

structure WorkerState where
  pos : Nat
  lastGoodPosition : Nat
  readState : ReadState
  entries : List TraceEntry
  sent : List MainThreadMessage
deriving DecidableEq, Repr

/-- `IETNotifyWorker::send_entries`. -/
def sendEntries (st : WorkerState) : WorkerState :=
  match st.entries with
  | [] => st
  | [e] => { st with entries := [], sent := st.sent.concat (.Insert e) }
  | es => { st with entries := [], sent := st.sent.concat (.InsertMany es) }

inductive OnModifyOutcome where
  | ok (st : WorkerState)
  | noMoreRetries (st : WorkerState)
  | fuelOut
deriving DecidableEq, Repr

/-- The length-prefix read at the top of the loop body: on the
length-prefixed configuration the stream position advances past the 8-byte
length. -/
def advancePastPref (lenPref : Bool) (st : WorkerState) : WorkerState :=
  if lenPref then { st with pos := st.pos + 8 } else st

/-- The successful-decode arm of `on_modify`: push the entry, flush the
batch once more than 32 entries are buffered. -/
def pushEntryAndMaybeSend (st1 : WorkerState) (x : TraceEntry) (p2 : Nat) : WorkerState :=
  let st2 := { st1 with pos := p2, entries := st1.entries.concat x }
  if 32 < st2.entries.length then sendEntries st2 else st2

/-- The decode loop of `IETNotifyWorker::on_modify`. -/
def onModifyLoop (lenPref : Bool) (buf : List Nat) :
    Nat → WorkerState → OnModifyOutcome
  | 0, _ => .fuelOut
  | f + 1, st =>
    if lenPref ∧ buf.length < st.pos + 8 then
      -- EOF while reading the length prefix: wait for the next wake-up
      .ok (sendEntries st)
    else
      match decTraceEntry buf (advancePastPref lenPref st).pos with
      | .ok (x, p2) =>
        onModifyLoop lenPref buf f
          { (pushEntryAndMaybeSend (advancePastPref lenPref st) x p2) with
              lastGoodPosition := p2
              readState := .Standby }
      | .error (.eof, _) =>
        -- file ended mid-record: seek back and wait for the next wake-up
        .ok (sendEntries { (advancePastPref lenPref st) with
          pos := (advancePastPref lenPref st).lastGoodPosition })
      | .error (.bad, pErr) =>
        match (advancePastPref lenPref st).readState with
        | .Retrying retries =>
          if 8 < retries then
            .noMoreRetries (sendEntries { (advancePastPref lenPref st) with pos := pErr })
          else
            onModifyLoop lenPref buf f
              { (advancePastPref lenPref st) with
                  pos := pErr
                  readState := .Retrying (retries + 1) }
        | .Standby =>
          -- the source matches only `Retrying` here and does nothing on
          -- `Standby`: no transition, no counter
          onModifyLoop lenPref buf f { (advancePastPref lenPref st) with pos := pErr }

/-- A fresh worker as `IETNotifyWorker::new` builds it at stream position
`pos`. -/
def workerInit (pos : Nat) : WorkerState :=
  ⟨pos, pos, .Standby, [], []⟩

/-! ## `BaseIETLogProvider::frame_callback` (`remote/mod.rs`) -/

structure BaseIETLogProvider where
  pool : List PoolEntry
  data : List TraceEntry
deriving DecidableEq, Repr

/-- The per-event pool update inside the `InsertMany` arm of
`frame_callback`. -/
def insertManyStep (oldPl : Nat) (acc : Option (List PoolEntry)) (p : Nat × TraceEntry) :
    Option (List PoolEntry) :=
  acc.bind fun pool =>
    let idx := p.1 + oldPl
    if idx != 0 then
      if p.2.parent < pool.length then some (pushChild pool p.2.parent idx) else none
    else some pool

/-- Processing of one drained `MainThreadMessage`; `none` models the panic
when a parent index is out of bounds. -/
def applyMessage (st : BaseIETLogProvider) : MainThreadMessage → Option BaseIETLogProvider
  | .Insert event =>
    let pl := st.pool.length
    let pool := st.pool.concat PoolEntry.new
    if pl != 0 then
      if event.parent < pool.length then
        some ⟨pushChild pool event.parent pl, st.data.concat event⟩
      else none
    else some ⟨pool, st.data.concat event⟩
  | .InsertMany events =>
    let oldPl := st.pool.length
    let pool := st.pool ++ List.replicate events.length PoolEntry.new
    match events.enum.foldl (insertManyStep oldPl) (some pool) with
    | none => none
    | some pool2 => some ⟨pool2, st.data ++ events⟩
  | .ReplacePool p => some ⟨p, st.data⟩
  | .ReplaceData d => some ⟨st.pool, d⟩

/-- The drain loop of `frame_callback`: up to `N = 50` `try_recv`s per
invocation; an empty channel makes the remaining iterations no-ops. -/
def frameLoop : Nat → BaseIETLogProvider → List MainThreadMessage →
    Option (BaseIETLogProvider × List MainThreadMessage)
  | 0, st, q => some (st, q)
  | _ + 1, st, [] => some (st, [])
  | n + 1, st, msg :: q =>
    match applyMessage st msg with
    | none => none
    | some st2 => frameLoop n st2 q

def frame_callback (st : BaseIETLogProvider) (queue : List MainThreadMessage) :
    Option (BaseIETLogProvider × List MainThreadMessage) :=
  frameLoop 50 st queue

/-- `BaseIETLogProvider::len` returns `self.data.len()`. -/
def BaseIETLogProvider.len (st : BaseIETLogProvider) : Nat := st.data.length

def isInsertMessage : MainThreadMessage → Bool
  | .Insert _ => true
  | .InsertMany _ => true
  | _ => false

/-! ## Concrete instances used in the theorems below -/

/-- The synthetic root record (`TraceEntry::root()`): parent 0, no message,
metadata name `"root"`, everything else empty. -/
def rootEntry : TraceEntry :=
  ⟨0, none, ⟨[114, 111, 111, 116], [], .Trace, none, none, none⟩, []⟩

/-- A producer span whose 300-byte message pushes the following record past
byte offset 250. -/
def bigEntry : TraceEntry :=
  ⟨0, some (List.replicate 300 97), ⟨[98], [], .Info, none, none, none⟩, []⟩

/-- A small producer span (message `"h"`). -/
def thirdEntry : TraceEntry := ⟨0, some [104], ⟨[99], [], .Info, none, none, none⟩, []⟩

/-- A three-record IET capture whose third record starts at byte offset 326:
its offset no longer fits in a single varint byte. -/
def c2Iet : List Nat :=
  entraceMagicIET ++ encodeTraceEntry rootEntry ++ encodeTraceEntry bigEntry ++
    encodeTraceEntry thirdEntry

/-- A two-record IET capture, the shape of the repository's own
`test_iet_et_iet` round-trip test. -/
def c2SmallIet : List Nat :=
  entraceMagicIET ++ encodeTraceEntry rootEntry ++ encodeTraceEntry thirdEntry

/-- A span whose metadata carries a `module_path` (`"mp"`), a `file`
(`"f.rs"`) and a `line`. -/
def c4Entry : TraceEntry :=
  ⟨0, some [109], ⟨[110], [116], .Info, some [109, 112], some [102, 46, 114, 115], some 7⟩, []⟩

/-- A watch-worker input of ten corrupt records: each `[0, 7]` pair decodes
`parent = 0` and then hits the invalid `Option` tag `7`, a non-EOF decode
error. -/
def c5Buf : List Nat := (List.replicate 10 [0, 7]).flatten

/-- `And([Primitive {1}, Primitive {2}])`: both children already
materialize to their own bitmaps. -/
def c1Evaluator : Evaluator :=
  ⟨[.Primitive (Roaring.ofList [1]), .Primitive (Roaring.ofList [2]), .And [0, 1]], [], []⟩

/-- A pass-through matcher; the arenas it is used with contain no `RelDnf`
node, so it is never consulted. -/
def idMatcher : Matcher := fun _ r => r

/-- The arena on which `normalize` diverges: node 5 is
`And([RelDnf(9 clauses, src 0), RelDnf(9 clauses, src 0), RelDnf(1 clause, src 1)])`.
The source-0 group has two DNFs but merged size `9 * 9 = 81 > 64`, so
`do_rewrite_action` skips it; the source-1 group has merged size `1 < 64`
but only one DNF.  `decide_rewrite_action` nevertheless keeps returning
`MergeDnfsInAnd`, because its guard tests the two conditions on different
groups. -/
def c3Evaluator : Evaluator :=
  ⟨[.Primitive (Roaring.ofList [0]), .Primitive (Roaring.ofList [1]),
    .RelDnf (List.replicate 9 []) 0, .RelDnf (List.replicate 9 []) 0,
    .RelDnf [[]] 1, .And [2, 3, 4]], [], []⟩

def c3ParentOf : List (Option Nat) := [some 2, some 4, some 5, some 5, some 5, none]

/-- The parametric nested-DNF arena of the fusion-bound scenario:
`RelDnf(c1, RelDnf(c2, Primitive))` rooted at node 0. -/
def nestedDnfEvaluator (c1 c2 : List (List Nat)) (bm : Roaring) : Evaluator :=
  ⟨[.RelDnf c1 1, .RelDnf c2 2, .Primitive bm], [], []⟩

/-- The one-level `Not` arena: node 1 is `Not(Primitive mF)`. -/
def notEvaluator (mF : Roaring) : Evaluator := ⟨[.Primitive mF, .Not 0], [], []⟩

/-! ## Theorems -/

/-- C1: the claim says materializing `And([F, G])` yields
`materialize(F) ∩ materialize(G)` (and `Or` their union).  On the arena
`And([Primitive {1}, Primitive {2}])` the materialized result of the `And`
node contains both 1 and 2 — the source's `And` arm computes `.union()`
over the children — while the intersection of the children's bitmaps does
not contain 2.  This refutes the `And` half of the claim at a concrete
input. -/
theorem and_node_materializes_to_union :
    ((c1Evaluator.materialize idMatcher 20 2).bind fun e => resultsLookup e.results 2).map
        (fun r => (r 1, r 2)) = some (true, true)
    ∧ Roaring.inter (Roaring.ofList [1]) (Roaring.ofList [2]) 2 = false :=
  ⟨rfl, rfl⟩

/-- C6: the claim says a `meta.level` predicate compares the span's level on
the 1-based scale of `level_to_u8` (`Info = 3`).  `meta_matches` instead
compares the 0-based enum discriminant (`Info as u8 = 2`), so a span at
level `Info` does not satisfy `meta.level Equal 3` — it satisfies
`meta.level Equal 2`. -/
theorem meta_level_uses_zero_based_discriminant :
    meta_matches ⟨[110], [], .Info, none, none, none⟩ [108, 101, 118, 101, 108]
        .eq (.I64 3) = .ok false
    ∧ meta_matches ⟨[110], [], .Info, none, none, none⟩ [108, 101, 118, 101, 108]
        .eq (.I64 2) = .ok true
    ∧ level_to_u8 .Info = 3 ∧ LevelContainer.disc .Info = 2 :=
  ⟨rfl, rfl, rfl, rfl⟩

/-- C7: materializing `Not(F)` produces `Roaring::full() − materialize(F)`,
so once both sides are clamped to the real id range `[0, len)` (with
`len ≤ 2^32`, as ids are u32), the result is exactly `[0, len)` minus the
clamped materialization of `F`.  `F`'s materialized result is an arbitrary
bitmap `mF`. -/
theorem not_materialization_correct_after_clamp (m : Matcher) (mF : Roaring)
    (len : Nat) (hlen : len ≤ U32LIMIT) (x : Nat) :
    (((notEvaluator mF).materialize m 10 1).bind fun e => resultsLookup e.results 1)
      = some (Roaring.diff Roaring.full mF)
    ∧ Roaring.clamp len (Roaring.diff Roaring.full mF) x
      = (decide (x < len) && !(Roaring.clamp len mF x)) := by
  refine ⟨rfl, ?_⟩
  unfold Roaring.clamp Roaring.diff Roaring.full
  by_cases hx : x < len
  · have hx32 : x < U32LIMIT := lt_of_lt_of_le hx hlen
    simp [hx, hx32]
  · simp [hx]

/-- Witness for C7 at `mF = {0}`, `len = 5`, `x = 3`. -/
theorem not_materialization_correct_after_clamp_witness :
    (((notEvaluator (Roaring.ofList [0])).materialize idMatcher 10 1).bind
        fun e => resultsLookup e.results 1)
      = some (Roaring.diff Roaring.full (Roaring.ofList [0]))
    ∧ Roaring.clamp 5 (Roaring.diff Roaring.full (Roaring.ofList [0])) 3
      = (decide (3 < 5) && !(Roaring.clamp 5 (Roaring.ofList [0]) 3)) :=
  not_materialization_correct_after_clamp idMatcher (Roaring.ofList [0]) 5
    (by norm_num [U32LIMIT]) 3

theorem resultsInsert_ne_nil (rs : List (Nat × Roaring)) (k : Nat) (v : Roaring) :
    resultsInsert rs k v ≠ [] := by simp [resultsInsert]

/-- Any completed materialization run whose initial stack is nonempty (or
that started with nonempty results) ends with a nonempty results map: every
ready-phase step inserts. -/
theorem materializeLoop_results_ne_nil (m : Matcher) :
    ∀ (f : Nat) (e : Evaluator) (stack : List (Nat × Bool)) (e2 : Evaluator),
      materializeLoop m f e stack = some e2 → (stack = [] → e.results ≠ []) →
      e2.results ≠ [] := by
  intro f
  induction f with
  | zero =>
    intro e stack e2 h hne
    cases stack with
    | nil =>
      cases h
      exact hne rfl
    | cons hd tl => exact absurd h (by simp [materializeLoop])
  | succ f ih =>
    intro e stack e2 h hne
    cases stack with
    | nil =>
      cases h
      exact hne rfl
    | cons hd tl =>
      obtain ⟨node, ready⟩ := hd
      rw [materializeLoop] at h
      split at h
      · -- unready phase: the new stack always contains `(node, true)`
        split at h
        · exact ih _ _ _ h (by simp)
        · exact ih _ _ _ h (by simp)
        · exact ih _ _ _ h (by simp)
      · -- ready phase: every arm inserts into `results`
        split at h
        · exact ih _ _ _ h fun _ => resultsInsert_ne_nil _ _ _
        · exact ih _ _ _ h fun _ => resultsInsert_ne_nil _ _ _
        · split at h
          · exact absurd h (by simp)
          · exact ih _ _ _ h fun _ => resultsInsert_ne_nil _ _ _
        · split at h
          · exact absurd h (by simp)
          · exact ih _ _ _ h fun _ => resultsInsert_ne_nil _ _ _
        · split at h
          · exact absurd h (by simp)
          · exact ih _ _ _ h fun _ => resultsInsert_ne_nil _ _ _
        · split at h
          · exact absurd h (by simp)
          · exact ih _ _ _ h fun _ => resultsInsert_ne_nil _ _ _
        · split at h
          · exact absurd h (by simp)
          · split at h
            · exact absurd h (by simp)
            · exact ih _ _ _ h fun _ => resultsInsert_ne_nil _ _ _

/-- C10: once `materialize` has completed for any node, the results map is
nonempty, and `normalize` then always takes the
`panic!("Normalizing after there are results is unsafe")` branch instead of
rewriting: rewrites can never invalidate materialized results. -/
theorem normalize_after_materialize_panics (e : Evaluator) (m : Matcher)
    (fuel1 id : Nat) (e2 : Evaluator) (h : e.materialize m fuel1 id = some e2)
    (fuel2 root : Nat) :
    e2.normalize fuel2 root = .resultsNotEmpty := by
  have hne : e2.results ≠ [] :=
    materializeLoop_results_ne_nil m fuel1 e [(id, false)] e2 h (by simp)
  unfold Evaluator.normalize
  have : e2.results.isEmpty = false := by
    cases hr : e2.results with
    | nil => exact absurd hr hne
    | cons a l => rfl
  rw [this]
  rfl

/-- Witness for C10: materialize the `And` arena, then normalize the result. -/
theorem normalize_after_materialize_panics_witness :
    ∃ e2, c1Evaluator.materialize idMatcher 20 2 = some e2
      ∧ e2.normalize 10 2 = NormResult.resultsNotEmpty :=
  ⟨_, rfl, normalize_after_materialize_panics c1Evaluator idMatcher 20 2 _ rfl 10 2⟩

/-- C9 counterexample: a `frame_callback` that drains the whole pending
queue `[ReplaceData [root]]` (the file provider sends `ReplaceData` and
`ReplacePool` as two separate messages) completes with `len() = 1` but an
empty pool: the claimed invariant `len() == |pool| == |spans|` does not hold
after every completed `frame_callback`. -/
theorem frame_callback_replace_data_breaks_len_invariant :
    ∃ st2, frame_callback ⟨[], []⟩ [.ReplaceData [rootEntry]] = some (st2, [])
      ∧ st2.len = 1 ∧ st2.pool.length = 0 :=
  ⟨_, rfl, rfl, rfl⟩

theorem pushChild_length (pool : List PoolEntry) (parent pl : Nat) :
    (pushChild pool parent pl).length = pool.length := by
  simp [pushChild]

theorem insertManyStep_foldl_none (oldPl : Nat) :
    ∀ (l : List (Nat × TraceEntry)), l.foldl (insertManyStep oldPl) none = none := by
  intro l
  induction l with
  | nil => rfl
  | cons hd tl ih =>
    rw [List.foldl_cons]
    exact ih

theorem insertManyStep_foldl_length (oldPl : Nat) :
    ∀ (l : List (Nat × TraceEntry)) (pool pool2 : List PoolEntry),
      l.foldl (insertManyStep oldPl) (some pool) = some pool2 →
      pool2.length = pool.length := by
  intro l
  induction l with
  | nil =>
    intro pool pool2 h
    cases h
    rfl
  | cons hd tl ih =>
    intro pool pool2 h
    rw [List.foldl_cons] at h
    cases hstep : insertManyStep oldPl (some pool) hd with
    | none =>
      rw [hstep, insertManyStep_foldl_none] at h
      exact absurd h (by simp)
    | some pool1 =>
      rw [hstep] at h
      have hl : pool1.length = pool.length := by
        unfold insertManyStep at hstep
        simp only [Option.some_bind] at hstep
        split at hstep
        · split at hstep
          · cases hstep
            exact pushChild_length _ _ _
          · exact absurd hstep (by simp)
        · cases hstep
          rfl
      rw [ih pool1 pool2 h, hl]

/-- A drained `Insert` or `InsertMany` message grows pool and data by the
same amount, so it preserves `|pool| = |spans|`. -/
theorem applyMessage_insert_preserves_len (st st2 : BaseIETLogProvider)
    (msg : MainThreadMessage) (hmsg : isInsertMessage msg = true)
    (h : applyMessage st msg = some st2)
    (hlen : st.pool.length = st.data.length) : st2.pool.length = st2.data.length := by
  cases msg with
  | Insert ev =>
    simp only [applyMessage] at h
    split at h
    · split at h
      · cases h
        simp [pushChild_length, hlen]
      · exact absurd h (by simp)
    · cases h
      simp [hlen]
  | InsertMany evs =>
    simp only [applyMessage] at h
    split at h
    · exact absurd h (by simp)
    · cases h
      rename_i pool2 hfold
      have := insertManyStep_foldl_length st.pool.length evs.enum _ _ hfold
      simp [BaseIETLogProvider.len, this, hlen]
  | ReplacePool p => exact absurd hmsg (by simp [isInsertMessage])
  | ReplaceData d => exact absurd hmsg (by simp [isInsertMessage])

theorem frameLoop_insert_preserves_len :
    ∀ (n : Nat) (st : BaseIETLogProvider) (q : List MainThreadMessage)
      (st2 : BaseIETLogProvider) (q2 : List MainThreadMessage),
      (∀ msg ∈ q, isInsertMessage msg = true) →
      st.pool.length = st.data.length →
      frameLoop n st q = some (st2, q2) →
      st2.pool.length = st2.data.length := by
  intro n
  induction n with
  | zero =>
    intro st q st2 q2 _ hlen h
    cases h
    exact hlen
  | succ n ih =>
    intro st q st2 q2 hq hlen h
    cases q with
    | nil =>
      cases h
      exact hlen
    | cons msg rest =>
      rw [frameLoop] at h
      split at h
      · exact absurd h (by simp)
      · rename_i stMid happ
        exact ih _ _ _ _ (fun m hm => hq m (List.mem_cons_of_mem _ hm))
          (applyMessage_insert_preserves_len st stMid msg (hq msg (List.mem_cons_self _ _))
            happ hlen) h

/-- C9 amended: after a completed `frame_callback` that drained only
`Insert` and `InsertMany` messages (no unpaired `ReplacePool`/`ReplaceData`),
`len() == |pool| == |spans|` is preserved. -/
theorem frame_callback_insert_preserves_len_invariant (st : BaseIETLogProvider)
    (q : List MainThreadMessage) (st2 : BaseIETLogProvider) (q2 : List MainThreadMessage)
    (hq : ∀ msg ∈ q, isInsertMessage msg = true)
    (hlen : st.pool.length = st.data.length)
    (h : frame_callback st q = some (st2, q2)) :
    st2.pool.length = st2.data.length ∧ st2.len = st2.data.length :=
  ⟨frameLoop_insert_preserves_len 50 st q st2 q2 hq hlen h, rfl⟩

/-- Witness for the amended C9: drain one `Insert` into an empty provider. -/
theorem frame_callback_insert_preserves_len_invariant_witness :
    ∃ st2 q2, frame_callback ⟨[], []⟩ [.Insert rootEntry] = some (st2, q2)
      ∧ st2.pool.length = st2.data.length ∧ st2.len = st2.data.length :=
  ⟨_, _, rfl,
    frame_callback_insert_preserves_len_invariant ⟨[], []⟩ [.Insert rootEntry] _ _
      (by intro msg hm; simp at hm; subst hm; rfl) rfl rfl⟩

theorem normLoop_nil (root : Nat) (po : List (Option Nat)) (fuel : Nat) (e : Evaluator) :
    normLoop root po fuel e [] = .ok e := by
  cases fuel <;> rfl

theorem c3_rewriteFix_diverges : ∀ n, rewriteFix n c3Evaluator 5 = .fuelOut := by
  intro n
  induction n with
  | zero => rfl
  | succ n ih =>
    show (match rewriteFix n c3Evaluator 5 with
      | .ok (e3, _) => StepResult.ok (e3, true)
      | .panicked => StepResult.panicked
      | .fuelOut => StepResult.fuelOut) = .fuelOut
    rw [ih]

theorem c3_normLoop_step (x : Nat) (rest : List Nat)
    (hx : ∀ n, rewriteFix (n + 1) c3Evaluator x = .ok (c3Evaluator, false))
    (hrest : ∀ n, normLoop 5 c3ParentOf n c3Evaluator rest = .fuelOut) :
    ∀ n, normLoop 5 c3ParentOf n c3Evaluator (x :: rest) = .fuelOut := by
  intro n
  cases n with
  | zero => rfl
  | succ n =>
    rw [normLoop, hx n]
    exact hrest n

/-- C3: the claim says `normalize` always terminates on a finite acyclic
arena.  On `c3Evaluator` (six nodes, acyclic), `decide_rewrite_action`
returns `MergeDnfsInAnd` for the root forever — the group with more than
one DNF exceeds the 64-clause merge bound (so `do_rewrite_action` skips
it), while the group that is under the bound has only one DNF (skipped
too), so the rewrite is a no-op and the local fixpoint loop never reaches
`RewriteAction::None`: no amount of fuel completes `normalize`. -/
theorem normalize_diverges_on_unmergeable_dnf_group :
    ∀ fuel, c3Evaluator.normalize fuel 5 = .fuelOut := by
  have h5 : ∀ n, normLoop 5 c3ParentOf n c3Evaluator [5] = .fuelOut := by
    intro n
    cases n with
    | zero => rfl
    | succ n => rw [normLoop, c3_rewriteFix_diverges (n + 1)]
  have h4 := c3_normLoop_step 4 [5] (fun _ => rfl) h5
  have h1 := c3_normLoop_step 1 [4, 5] (fun _ => rfl) h4
  have h3 := c3_normLoop_step 3 [1, 4, 5] (fun _ => rfl) h1
  have h0b := c3_normLoop_step 0 [3, 1, 4, 5] (fun _ => rfl) h3
  have h2 := c3_normLoop_step 2 [0, 3, 1, 4, 5] (fun _ => rfl) h0b
  have h0 := c3_normLoop_step 0 [2, 0, 3, 1, 4, 5] (fun _ => rfl) h2
  intro fuel
  rcases Nat.lt_or_ge fuel 8 with hf | hf
  · interval_cases fuel <;> rfl
  · obtain ⟨f, rfl⟩ : ∃ f, fuel = f + 8 := ⟨fuel - 8, by omega⟩
    have heq : c3Evaluator.normalize (f + 8) 5
        = normLoop 5 c3ParentOf (f + 8) c3Evaluator [0, 2, 0, 3, 1, 4, 5] := by
      have hpo : c3Evaluator.postOrder (f + 8) 5
          = some ([0, 2, 0, 3, 1, 4, 5], c3ParentOf) := rfl
      show (match c3Evaluator.postOrder (f + 8) 5 with
        | none => NormResult.fuelOut
        | some (po, pa) => normLoop 5 pa (f + 8) c3Evaluator po)
        = normLoop 5 c3ParentOf (f + 8) c3Evaluator [0, 2, 0, 3, 1, 4, 5]
      rw [hpo]
    rw [heq]
    exact h0 (f + 8)

/-- C8: with `|c1| · |c2| ≥ MAX_DNF_CLAUSES = 128` the `DnfDnf` guard in
`decide_rewrite_action` rejects the fusion, every node of the nested-DNF
arena rewrites to `RewriteAction::None`, and `normalize` returns the arena
unchanged: both `RelDnf` nodes stay live with their clause lists and source
links intact. -/
theorem dnf_fusion_blocked_at_bound (c1 c2 : List (List Nat)) (bm : Roaring)
    (h : MAX_DNF_CLAUSES ≤ c1.length * c2.length) :
    (nestedDnfEvaluator c1 c2 bm).normalize 10 0 = .ok (nestedDnfEvaluator c1 c2 bm) := by
  have hdec : (nestedDnfEvaluator c1 c2 bm).decideRewriteAction 0 = .None := by
    show (if c1.length * c2.length < MAX_DNF_CLAUSES then RewriteAction.DnfDnf 0 1 2
      else RewriteAction.None) = RewriteAction.None
    rw [if_neg (by omega)]
  have hfix : ∀ n, rewriteFix (n + 1) (nestedDnfEvaluator c1 c2 bm) 0
      = .ok (nestedDnfEvaluator c1 c2 bm, false) := by
    intro n
    rw [rewriteFix]
    unfold Evaluator.rewriteOne
    rw [hdec]
    rfl
  have hloop : ∀ n, normLoop 0 [none, some 0, some 1] (n + 1)
      (nestedDnfEvaluator c1 c2 bm) [0] = .ok (nestedDnfEvaluator c1 c2 bm) := by
    intro n
    rw [normLoop, hfix n]
    exact normLoop_nil 0 [none, some 0, some 1] n (nestedDnfEvaluator c1 c2 bm)
  have heq : (nestedDnfEvaluator c1 c2 bm).normalize 10 0
      = normLoop 0 [none, some 0, some 1] (7 + 1) (nestedDnfEvaluator c1 c2 bm) [0] := rfl
  rw [heq]
  exact hloop 7

/-- Witness for C8 at `|c1| = |c2| = 12` (product 144 ≥ 128). -/
theorem dnf_fusion_blocked_at_bound_witness :
    (nestedDnfEvaluator (List.replicate 12 []) (List.replicate 12 [])
        (Roaring.ofList [3])).normalize 10 0
      = .ok (nestedDnfEvaluator (List.replicate 12 []) (List.replicate 12 [])
        (Roaring.ofList [3])) :=
  dnf_fusion_blocked_at_bound _ _ _ (by decide)

set_option maxRecDepth 100000 in
/-- The two-record trace of the repository's own `test_iet_et_iet` round
trip: every gathered offset fits a single varint byte, and the IET→ET→IET
composition is the identity on the bytes. -/
theorem et_to_iet_small_roundtrip :
    ∃ et, iet_to_et c2SmallIet true false = some (.ok et)
      ∧ et_to_iet et true = .ok c2SmallIet :=
  ⟨_, rfl, rfl⟩

set_option maxRecDepth 100000 in
/-- C2: the claim says IET→ET→IET is byte-identical for every producer
trace, the offset table being skippable from its length prefix.  The length
prefix is the element COUNT, and `et_to_iet` `seek_relative`s that many
BYTES; on `c2Iet` the third record starts at offset 326, encoded as three
varint bytes, so the skip lands inside the offset table, the pool decode
misreads a length of 326 pool entries and runs off the end of the buffer:
the round trip returns a decode error instead of the original bytes. -/
theorem et_to_iet_roundtrip_fails_on_large_offsets :
    gather_iet_table_data c2Iet true false
      = some (.ok ([0, 13, 326], [⟨[1, 2]⟩, ⟨[]⟩, ⟨[]⟩]))
    ∧ ∃ et, iet_to_et c2Iet true false = some (.ok et)
      ∧ et_to_iet et true = .error .eof :=
  ⟨rfl, _, rfl, rfl⟩

/-- C4: the claim says `header(x)` agrees with the full decode on name,
level, file, line and message, also when `module_path` is present.  The
partial `MetadataPart` omits `module_path`, so on a record with
`module_path = Some "mp"`, `file = Some "f.rs")`, `line = Some 7`, the
partial decode returns `file = Some "mp"` (the module path) and `line =
Some 4` (the length prefix of the file string), disagreeing with the full
decode; name, level and message still agree. -/
theorem header_decode_diverges_when_module_path_present :
    decTraceEntry (encodeTraceEntry c4Entry) 0
      = .ok (c4Entry, (encodeTraceEntry c4Entry).length)
    ∧ ∃ hp n, decHeaderPart (encodeTraceEntry c4Entry) 0 = .ok (hp, n)
      ∧ (headerOfPart hp).file = c4Entry.metadata.module_path
      ∧ (headerOfPart hp).name = (headerOfEntry c4Entry).name
      ∧ (headerOfPart hp).level = (headerOfEntry c4Entry).level
      ∧ (headerOfPart hp).message = (headerOfEntry c4Entry).message
      ∧ headerOfPart hp ≠ headerOfEntry c4Entry :=
  ⟨rfl, _, _, rfl, rfl, rfl, rfl, rfl, by decide⟩

theorem sendEntries_readState (st : WorkerState) :
    (sendEntries st).readState = st.readState := by
  unfold sendEntries
  split <;> rfl

/-- C5: the claim says that after 8 consecutive non-EOF decode errors the
worker surfaces `NoMoreRetries` and stops.  `read_state` starts `Standby`
and nothing in the loop ever sets it to `Retrying`, so the retry counter
never advances and the `NoMoreRetries` return is unreachable: from any
`Standby` state, `on_modify` either exhausts its fuel (consecutive decode
errors are retried without bound across wake-ups) or returns `Ok` with the
state still `Standby` — for any buffer, however corrupt. -/
theorem watch_worker_never_surfaces_no_more_retries (lenPref : Bool) (buf : List Nat) :
    ∀ (fuel : Nat) (st : WorkerState), st.readState = .Standby →
      (onModifyLoop lenPref buf fuel st = .fuelOut
        ∨ ∃ st2, onModifyLoop lenPref buf fuel st = .ok st2
            ∧ st2.readState = .Standby) := by
  intro fuel
  induction fuel with
  | zero =>
    intro st h
    left
    rfl
  | succ f ih =>
    intro st h
    have hadv : (advancePastPref lenPref st).readState = .Standby := by
      unfold advancePastPref
      split <;> simpa using h
    rw [onModifyLoop]
    split
    · right
      exact ⟨_, rfl, (sendEntries_readState _).trans h⟩
    · split
      · exact ih _ rfl
      · right
        exact ⟨_, rfl, (sendEntries_readState _).trans hadv⟩
      · rename_i pErr hdec
        rw [hadv]
        exact ih { (advancePastPref lenPref st) with pos := pErr } hadv

/-- Witness for C5 on the ten-corrupt-record buffer `c5Buf` (ten
consecutive non-EOF decode errors): the run completes with `Ok`, never
`NoMoreRetries`. -/
theorem watch_worker_never_surfaces_no_more_retries_witness :
    onModifyLoop false c5Buf 50 (workerInit 0) = .fuelOut
      ∨ ∃ st2, onModifyLoop false c5Buf 50 (workerInit 0) = .ok st2
          ∧ st2.readState = .Standby :=
  watch_worker_never_surfaces_no_more_retries false c5Buf 50 (workerInit 0) rfl

set_option maxRecDepth 100000 in
/-- The concrete run on `c5Buf`: ten consecutive corruption errors are
silently swallowed; the worker finishes with `Ok`, nothing sent, position
seeked back to the last good position 0. -/
theorem watch_worker_swallows_ten_corrupt_records :
    onModifyLoop false c5Buf 50 (workerInit 0) = .ok (workerInit 0) := rfl
